import Mathlib

/-
Verification of the multicast forwarding route table (spec.md) for
gvisor pkg/tcpip/network/internal/multicast.

The repository snapshot carries only the package example test
(multicast_test.Example); the route table implementation itself is not
present.  All table definitions below are therefore modelled from the
specification text, faithful to its words, and the example test fixes
the observable names (PendingRouteStateNone / Installed / Appended,
ErrNoBufferSpace) and the end-to-end scenario.

Modelling conventions:
- addresses, NIC ids and packet handles are opaque: naturals;
- the injectable monotonic clock is modelled by passing the current
  reading (nanoseconds, a natural) to every operation that reads time;
- the two maps are association lists keyed by RouteKey;
- ghost fields refsTaken / refsReleased count the packet ownership
  references the table has extended and released, for the ownership
  conservation property (spec section 5, resource ownership policy).
-/

namespace Multicast

/-- Network address, opaque to the table (spec section 3: RouteKey fields). -/
abbrev Address := Nat

/-- Network interface identifier. -/
abbrev NICID := Nat

/-- Opaque reference-counted packet handle (spec section 2). -/
abbrev Packet := Nat

/-- Monotonic clock reading in nanoseconds. -/
abbrev MonotonicTime := Nat

/-- Modelled from the spec (section 3): RouteKey is the pair of unicast
source and multicast destination, structural equality. -/
structure RouteKey where
  unicastSource : Address
  multicastDestination : Address
deriving DecidableEq, Repr

/-- Modelled from the spec (section 3): OutgoingInterface is an interface
id plus the minimum TTL required to forward out of it. -/
structure OutgoingInterface where
  id : NICID
  minTTL : Nat
deriving DecidableEq, Repr

/-- Modelled from the spec (section 3): InstalledRoute is the expected
input interface plus the ordered outgoing interface list. -/
structure InstalledRoute where
  expectedInputInterface : NICID
  outgoingInterfaces : List OutgoingInterface
deriving DecidableEq, Repr

/-- Modelled from the spec (section 3): PendingRoute buffers packets in
FIFO order together with the creation timestamp used for expiration. -/
structure PendingRoute where
  packets : List Packet
  createdAt : MonotonicTime
deriving DecidableEq, Repr

/-- Modelled from the spec (sections 4.4 and 6): configuration carries the
global buffered packet budget and the pending route lifetime.  Both are
integers because Init must reject zero or negative values.  The clock is
injected separately, as explicit time arguments to the operations. -/
structure Config where
  maxPendingPacketsBuffered : Int
  pendingRouteLifetime : Int
deriving DecidableEq, Repr

/-- Modelled from the spec (section 4.4): a default configuration with
conservative positive production values, given only a clock. -/
def DefaultConfig : Config :=
  { maxPendingPacketsBuffered := 1024
    pendingRouteLifetime := 60000000000 }

/-- Result state of GetRouteOrInsertPending.  The constructor names come
from the package example test: PendingRouteStateNone is the resolved case
(an installed route exists), PendingRouteStateInstalled is the newly
pending case (the pending entry was just created), and
PendingRouteStateAppended means the packet was appended to an existing
pending entry. -/
inductive PendingRouteState where
  | PendingRouteStateNone
  | PendingRouteStateInstalled
  | PendingRouteStateAppended
deriving DecidableEq, Repr

/-- Result of GetRouteOrInsertPending: the pending route state and, in the
resolved case, the installed route. -/
structure GetRouteResult where
  pendingRouteState : PendingRouteState
  installedRoute : Option InstalledRoute
deriving DecidableEq, Repr

/-- Modelled from the spec (section 7): the error taxonomy of the table.
ErrNoBufferSpace is the name used by the example test for the first one. -/
inductive TableError where
  | noBufferSpace
  | invalidState
  | invalidConfig
deriving DecidableEq, Repr

/-- Modelled from the spec (section 4.4): lifecycle states
Uninitialized, Initialized (called live here) and Closed. -/
inductive TableStatus where
  | uninit
  | live
  | closed
deriving DecidableEq, Repr

/-- Modelled from the spec (section 3): the route table state is the
installed route map (with a last used timestamp per route), the pending
route map, and the single global counter of buffered packets, plus the
lifecycle status and the configuration.  refsTaken and refsReleased are
ghost instrumentation counting packet ownership references extended and
released by the table (spec section 5, resource ownership policy). -/
structure RouteTable where
  status : TableStatus
  config : Config
  installedRoutes : List (RouteKey × (InstalledRoute × MonotonicTime))
  pendingRoutes : List (RouteKey × PendingRoute)
  numBufferedPackets : Nat
  refsTaken : Nat
  refsReleased : Nat
deriving DecidableEq, Repr

/-- The zero value of the table, status Uninitialized (what the Go
expression multicast.RouteTable produces before Init). -/
def RouteTable.empty : RouteTable :=
  { status := .uninit
    config := { maxPendingPacketsBuffered := 0, pendingRouteLifetime := 0 }
    installedRoutes := []
    pendingRoutes := []
    numBufferedPackets := 0
    refsTaken := 0
    refsReleased := 0 }

/-- Association list lookup for the table maps: first entry with the key. -/
def lookupKey {β : Type} : List (RouteKey × β) → RouteKey → Option β
  | [], _ => Option.none
  | e :: l, k => if e.1 = k then some e.2 else lookupKey l k

/-- Association list insert or overwrite: replaces the first entry with
the key in place, otherwise appends at the end. -/
def setKey {β : Type} : List (RouteKey × β) → RouteKey → β → List (RouteKey × β)
  | [], k, v => [(k, v)]
  | e :: l, k, v => if e.1 = k then (k, v) :: l else e :: setKey l k v

/-- Association list removal of a key. -/
def removeKey {β : Type} : List (RouteKey × β) → RouteKey → List (RouteKey × β)
  | [], _ => []
  | e :: l, k => if e.1 = k then removeKey l k else e :: removeKey l k

/-- Keys of an association list. -/
def keysOf {β : Type} (l : List (RouteKey × β)) : List RouteKey :=
  l.map Prod.fst

/-- Well formed association list: no duplicate keys, as in a Go map. -/
def NodupKeys {β : Type} (l : List (RouteKey × β)) : Prop :=
  (keysOf l).Nodup

/-- Total number of packets buffered across a pending route map (spec
section 3, the second invariant compares the global counter to this). -/
def pendingPacketCount (l : List (RouteKey × PendingRoute)) : Nat :=
  (l.map (fun e => e.2.packets.length)).sum

/-- Modelled from the spec (section 4.1): NewInstalledRoute is a pure
constructor that copies the outgoing interface list. -/
def NewInstalledRoute (inputInterface : NICID)
    (outgoingInterfaces : List OutgoingInterface) : InstalledRoute :=
  { expectedInputInterface := inputInterface
    outgoingInterfaces := outgoingInterfaces }

/-- Modelled from the spec (section 4.4): Init validates the
configuration, rejecting a zero or negative buffer budget or pending
route lifetime with InvalidConfig, and otherwise produces a fresh
Initialized table with empty maps and a zero counter. -/
def Init (config : Config) : Except TableError RouteTable :=
  if config.maxPendingPacketsBuffered ≤ 0 ∨ config.pendingRouteLifetime ≤ 0 then
    .error .invalidConfig
  else
    .ok { status := .live
          config := config
          installedRoutes := []
          pendingRoutes := []
          numBufferedPackets := 0
          refsTaken := 0
          refsReleased := 0 }

/-- Modelled from the spec (sections 4.2 and 7): GetRouteOrInsertPending.
Fails with InvalidState unless the table is Initialized.  If an installed
route exists the call is resolved: no staging, the last used timestamp of
the route is set to now, and the route is returned.  Otherwise the packet
must be staged; if that would push the global counter past the configured
budget the call fails with NoBufferSpace and nothing changes.  Otherwise
the packet is appended (FIFO, at the tail) to the existing pending entry,
or a fresh pending entry with creation time now is created, and the table
takes one ownership reference on the packet. -/
def GetRouteOrInsertPending (t : RouteTable) (key : RouteKey) (pkt : Packet)
    (now : MonotonicTime) : Except TableError (GetRouteResult × RouteTable) :=
  if t.status ≠ .live then
    .error .invalidState
  else
    match lookupKey t.installedRoutes key with
    | some (route, _) =>
        .ok ({ pendingRouteState := .PendingRouteStateNone
               installedRoute := some route },
             { t with installedRoutes := setKey t.installedRoutes key (route, now) })
    | Option.none =>
        if t.config.maxPendingPacketsBuffered < (t.numBufferedPackets : Int) + 1 then
          .error .noBufferSpace
        else
          match lookupKey t.pendingRoutes key with
          | some pr =>
              .ok ({ pendingRouteState := .PendingRouteStateAppended
                     installedRoute := Option.none },
                   { t with
                      pendingRoutes :=
                        setKey t.pendingRoutes key
                          { pr with packets := pr.packets ++ [pkt] }
                      numBufferedPackets := t.numBufferedPackets + 1
                      refsTaken := t.refsTaken + 1 })
          | Option.none =>
              .ok ({ pendingRouteState := .PendingRouteStateInstalled
                     installedRoute := Option.none },
                   { t with
                      pendingRoutes :=
                        setKey t.pendingRoutes key
                          { packets := [pkt], createdAt := now }
                      numBufferedPackets := t.numBufferedPackets + 1
                      refsTaken := t.refsTaken + 1 })

/-- Modelled from the spec (section 4.1): AddInstalledRoute inserts or
overwrites the installed route for the key with its last used timestamp
reset to now.  If a pending entry exists it is removed, its packets are
returned (ownership transferred to the caller, so the table counts them
released) and the global counter drops by their number; otherwise the
returned flush list is empty. -/
def AddInstalledRoute (t : RouteTable) (key : RouteKey) (route : InstalledRoute)
    (now : MonotonicTime) : Except TableError (List Packet × RouteTable) :=
  if t.status ≠ .live then
    .error .invalidState
  else
    match lookupKey t.pendingRoutes key with
    | some pr =>
        .ok (pr.packets,
             { t with
                installedRoutes := setKey t.installedRoutes key (route, now)
                pendingRoutes := removeKey t.pendingRoutes key
                numBufferedPackets := t.numBufferedPackets - pr.packets.length
                refsReleased := t.refsReleased + pr.packets.length })
    | Option.none =>
        .ok ([],
             { t with
                installedRoutes := setKey t.installedRoutes key (route, now) })

/-- Modelled from the spec (section 4.1): RemoveInstalledRoute removes the
installed entry if present and reports whether one was found; pending
entries are untouched. -/
def RemoveInstalledRoute (t : RouteTable) (key : RouteKey) :
    Except TableError (Bool × RouteTable) :=
  if t.status ≠ .live then
    .error .invalidState
  else
    match lookupKey t.installedRoutes key with
    | some _ =>
        .ok (true, { t with installedRoutes := removeKey t.installedRoutes key })
    | Option.none =>
        .ok (false, t)

/-- Modelled from the spec (section 4.1): GetLastUsedTimestamp is a read
only lookup of the last used timestamp of the installed route for the
key; absence is reported by the option. -/
def GetLastUsedTimestamp (t : RouteTable) (key : RouteKey) :
    Except TableError (Option MonotonicTime) :=
  if t.status ≠ .live then
    .error .invalidState
  else
    .ok ((lookupKey t.installedRoutes key).map Prod.snd)

/-- Expiration test for one pending entry: its age at the instant now has
reached the configured lifetime. -/
def expiredAt (lifetime : Nat) (now : MonotonicTime)
    (e : RouteKey × PendingRoute) : Bool :=
  decide (e.2.createdAt + lifetime ≤ now)

/-- Modelled from the spec (section 4.3): the expiration sweep removes
every pending entry whose age has reached the configured lifetime,
releases the ownership references of all its buffered packets, and
decrements the global counter by their number. -/
def cleanupPendingRoutes (t : RouteTable) (now : MonotonicTime) : RouteTable :=
  let expCount :=
    pendingPacketCount
      (t.pendingRoutes.filter (expiredAt t.config.pendingRouteLifetime.toNat now))
  { t with
     pendingRoutes :=
       t.pendingRoutes.filter
         (fun e => !(expiredAt t.config.pendingRouteLifetime.toNat now e))
     numBufferedPackets := t.numBufferedPackets - expCount
     refsReleased := t.refsReleased + expCount }

/-- Modelled from the spec (section 4.4): Close stops the scheduler,
releases every still buffered packet across all pending entries, clears
both maps, and moves the table to the terminal Closed state. -/
def Close (t : RouteTable) : RouteTable :=
  { t with
     status := .closed
     installedRoutes := []
     pendingRoutes := []
     numBufferedPackets := 0
     refsReleased := t.refsReleased + pendingPacketCount t.pendingRoutes }

/-- One table operation, for trace based reachability. -/
inductive Op where
  | getRoute (key : RouteKey) (pkt : Packet) (now : MonotonicTime)
  | addRoute (key : RouteKey) (route : InstalledRoute) (now : MonotonicTime)
  | removeRoute (key : RouteKey)
  | cleanup (now : MonotonicTime)
  | close

/-- State reached after one operation; a call that returns an error does
not mutate the table. -/
def applyOp (t : RouteTable) : Op → RouteTable
  | .getRoute k p now =>
      match GetRouteOrInsertPending t k p now with
      | .ok (_, t') => t'
      | .error _ => t
  | .addRoute k r now =>
      match AddInstalledRoute t k r now with
      | .ok (_, t') => t'
      | .error _ => t
  | .removeRoute k =>
      match RemoveInstalledRoute t k with
      | .ok (_, t') => t'
      | .error _ => t
  | .cleanup now => cleanupPendingRoutes t now
  | .close => Close t

/-- Reachable table states: a successful Init followed by any sequence of
operations. -/
inductive Reachable : RouteTable → Prop where
  | init (c : Config) (t : RouteTable) : Init c = .ok t → Reachable t
  | step (t : RouteTable) (op : Op) : Reachable t → Reachable (applyOp t op)

/-- The structural invariants of the table (spec section 3): well formed
maps, mutual exclusivity of installed and pending per key, the global
counter equal to the total pending packet count, and ownership reference
conservation. -/
structure Inv (t : RouteTable) : Prop where
  ndInstalled : NodupKeys t.installedRoutes
  ndPending : NodupKeys t.pendingRoutes
  disj : ∀ k, lookupKey t.installedRoutes k = Option.none ∨
    lookupKey t.pendingRoutes k = Option.none
  count : t.numBufferedPackets = pendingPacketCount t.pendingRoutes
  owner : t.refsTaken = t.refsReleased + t.numBufferedPackets

/- Concrete sample data used by the witness theorems. -/

/-- Sample route key. -/
def sampleKey : RouteKey :=
  { unicastSource := 1, multicastDestination := 2 }

/-- A second sample route key, distinct from sampleKey. -/
def otherKey : RouteKey :=
  { unicastSource := 3, multicastDestination := 4 }

/-- Sample installed route (input NIC 1, one outgoing interface). -/
def sampleRoute : InstalledRoute :=
  NewInstalledRoute 1 [{ id := 2, minTTL := 10 }]

/-- The table produced by a successful Init with the default
configuration. -/
def freshTable : RouteTable :=
  { status := .live
    config := DefaultConfig
    installedRoutes := []
    pendingRoutes := []
    numBufferedPackets := 0
    refsTaken := 0
    refsReleased := 0 }

/-- A sample table holding one pending entry with one buffered packet. -/
def pendingTable : RouteTable :=
  { status := .live
    config := DefaultConfig
    installedRoutes := []
    pendingRoutes := [(sampleKey, { packets := [7], createdAt := 10000000000 })]
    numBufferedPackets := 1
    refsTaken := 1
    refsReleased := 0 }

/-- A sample table whose buffered packet budget is exhausted. -/
def fullTable : RouteTable :=
  { status := .live
    config := { maxPendingPacketsBuffered := 1, pendingRouteLifetime := 60000000000 }
    installedRoutes := []
    pendingRoutes := [(sampleKey, { packets := [3], createdAt := 0 })]
    numBufferedPackets := 1
    refsTaken := 1
    refsReleased := 0 }

/- Association list lemmas. -/

theorem lookupKey_setKey_self {β : Type} (l : List (RouteKey × β)) (k : RouteKey)
    (v : β) : lookupKey (setKey l k v) k = some v := by
  induction l with
  | nil => simp [setKey, lookupKey]
  | cons e l ih =>
      by_cases h : e.1 = k
      · simp [setKey, h, lookupKey]
      · simp [setKey, h, lookupKey, ih]

theorem lookupKey_setKey_ne {β : Type} (l : List (RouteKey × β)) {k k' : RouteKey}
    (v : β) (h : k' ≠ k) : lookupKey (setKey l k v) k' = lookupKey l k' := by
  induction l with
  | nil => simp [setKey, lookupKey, Ne.symm h]
  | cons e l ih =>
      by_cases he : e.1 = k
      · subst he
        simp [setKey, lookupKey, Ne.symm h]
      · simp [setKey, he, lookupKey, ih]

theorem lookupKey_removeKey_self {β : Type} (l : List (RouteKey × β))
    (k : RouteKey) : lookupKey (removeKey l k) k = Option.none := by
  induction l with
  | nil => simp [removeKey, lookupKey]
  | cons e l ih =>
      by_cases h : e.1 = k
      · simp [removeKey, h, ih]
      · simp [removeKey, h, lookupKey, ih]

theorem lookupKey_removeKey_ne {β : Type} (l : List (RouteKey × β)) {k k' : RouteKey}
    (h : k' ≠ k) : lookupKey (removeKey l k) k' = lookupKey l k' := by
  induction l with
  | nil => simp [removeKey]
  | cons e l ih =>
      by_cases he : e.1 = k
      · subst he
        simp [removeKey, lookupKey, Ne.symm h, ih]
      · simp [removeKey, he, lookupKey, ih]

theorem removeKey_sublist {β : Type} (l : List (RouteKey × β)) (k : RouteKey) :
    (removeKey l k).Sublist l := by
  induction l with
  | nil => simp [removeKey]
  | cons e l ih =>
      by_cases h : e.1 = k
      · simp only [removeKey, if_pos h]
        exact ih.cons e
      · simp only [removeKey, if_neg h]
        exact ih.cons₂ e

theorem lookupKey_eq_none_iff {β : Type} (l : List (RouteKey × β)) (k : RouteKey) :
    lookupKey l k = Option.none ↔ k ∉ keysOf l := by
  induction l with
  | nil => simp [lookupKey, keysOf]
  | cons e l ih =>
      by_cases h : e.1 = k
      · simp [lookupKey, h, keysOf]
      · simp only [lookupKey, if_neg h, keysOf, List.map_cons, List.mem_cons,
          not_or]
        rw [ih]
        constructor
        · intro hn
          exact ⟨fun h1 => h h1.symm, hn⟩
        · intro hn
          exact hn.2

theorem removeKey_of_not_mem {β : Type} {l : List (RouteKey × β)} {k : RouteKey}
    (h : k ∉ keysOf l) : removeKey l k = l := by
  induction l with
  | nil => rfl
  | cons e l ih =>
      simp only [keysOf, List.map_cons, List.mem_cons] at h
      push_neg at h
      simp only [removeKey, if_neg (fun he : e.1 = k => h.1 he.symm)]
      rw [ih h.2]

theorem nodupKeys_of_sublist {β : Type} {l l' : List (RouteKey × β)}
    (hs : l'.Sublist l) (h : NodupKeys l) : NodupKeys l' :=
  List.Nodup.sublist (hs.map Prod.fst) h

theorem mem_keys_setKey {β : Type} {l : List (RouteKey × β)} {k k' : RouteKey}
    {v : β} (h : k' ∈ keysOf (setKey l k v)) : k' ∈ keysOf l ∨ k' = k := by
  induction l with
  | nil => simpa [setKey, keysOf] using h
  | cons e l ih =>
      by_cases he : e.1 = k
      · simp only [setKey, if_pos he, keysOf, List.map_cons, List.mem_cons] at h ⊢
        rcases h with h | h
        · right; exact h
        · left; right; exact h
      · simp only [setKey, if_neg he, keysOf, List.map_cons, List.mem_cons] at h ⊢
        rcases h with h | h
        · left; left; exact h
        · rcases ih h with h' | h'
          · left; right; exact h'
          · right; exact h'

theorem nodupKeys_setKey {β : Type} {l : List (RouteKey × β)} (k : RouteKey)
    (v : β) (h : NodupKeys l) : NodupKeys (setKey l k v) := by
  induction l with
  | nil => simp [setKey, NodupKeys, keysOf]
  | cons e l ih =>
      simp only [NodupKeys, keysOf, List.map_cons, List.nodup_cons] at h
      by_cases he : e.1 = k
      · subst he
        simpa [setKey, NodupKeys, keysOf] using h
      · have ih' := ih h.2
        simp only [setKey, if_neg he, NodupKeys, keysOf, List.map_cons,
          List.nodup_cons]
        refine ⟨fun hm => ?_, ih'⟩
        rcases mem_keys_setKey hm with h' | h'
        · exact h.1 h'
        · exact he h'

theorem nodupKeys_removeKey {β : Type} {l : List (RouteKey × β)} (k : RouteKey)
    (h : NodupKeys l) : NodupKeys (removeKey l k) :=
  nodupKeys_of_sublist (removeKey_sublist l k) h

theorem nodupKeys_filter {β : Type} {l : List (RouteKey × β)}
    (p : RouteKey × β → Bool) (h : NodupKeys l) : NodupKeys (l.filter p) :=
  nodupKeys_of_sublist (List.filter_sublist l) h

theorem lookupKey_filter_none {β : Type} {l : List (RouteKey × β)} {k : RouteKey}
    (p : RouteKey × β → Bool) (h : lookupKey l k = Option.none) :
    lookupKey (l.filter p) k = Option.none := by
  rw [lookupKey_eq_none_iff] at h ⊢
  intro hm
  apply h
  have hs : ((l.filter p).map Prod.fst).Sublist (l.map Prod.fst) :=
    (List.filter_sublist l).map Prod.fst
  exact hs.subset hm

/- Packet count lemmas. -/

theorem pendingPacketCount_nil : pendingPacketCount [] = 0 := rfl

theorem pendingPacketCount_cons (e : RouteKey × PendingRoute)
    (l : List (RouteKey × PendingRoute)) :
    pendingPacketCount (e :: l) = e.2.packets.length + pendingPacketCount l := by
  simp [pendingPacketCount]

theorem pendingPacketCount_setKey_found {l : List (RouteKey × PendingRoute)}
    {k : RouteKey} {pr : PendingRoute} (pr' : PendingRoute)
    (h : lookupKey l k = some pr) :
    pendingPacketCount (setKey l k pr') + pr.packets.length
      = pendingPacketCount l + pr'.packets.length := by
  induction l with
  | nil => simp [lookupKey] at h
  | cons e l ih =>
      by_cases he : e.1 = k
      · simp only [lookupKey, if_pos he] at h
        cases h
        simp only [setKey, if_pos he, pendingPacketCount_cons]
        omega
      · simp only [lookupKey, if_neg he] at h
        have := ih h
        simp only [setKey, if_neg he, pendingPacketCount_cons]
        omega

theorem pendingPacketCount_setKey_new {l : List (RouteKey × PendingRoute)}
    {k : RouteKey} (pr : PendingRoute) (h : lookupKey l k = Option.none) :
    pendingPacketCount (setKey l k pr)
      = pendingPacketCount l + pr.packets.length := by
  induction l with
  | nil => simp [setKey, pendingPacketCount]
  | cons e l ih =>
      by_cases he : e.1 = k
      · simp [lookupKey, he] at h
      · simp only [lookupKey, if_neg he] at h
        have := ih h
        simp only [setKey, if_neg he, pendingPacketCount_cons]
        omega

theorem pendingPacketCount_removeKey {l : List (RouteKey × PendingRoute)}
    {k : RouteKey} {pr : PendingRoute} (hnd : NodupKeys l)
    (h : lookupKey l k = some pr) :
    pendingPacketCount (removeKey l k) + pr.packets.length
      = pendingPacketCount l := by
  induction l with
  | nil => simp [lookupKey] at h
  | cons e l ih =>
      simp only [NodupKeys, keysOf, List.map_cons, List.nodup_cons] at hnd
      by_cases he : e.1 = k
      · simp only [lookupKey, if_pos he] at h
        cases h
        have hnm : k ∉ keysOf l := by
          rw [← he]; exact hnd.1
        simp only [removeKey, if_pos he, removeKey_of_not_mem hnm,
          pendingPacketCount_cons]
        omega
      · simp only [lookupKey, if_neg he] at h
        have := ih hnd.2 h
        simp only [removeKey, if_neg he, pendingPacketCount_cons]
        omega

theorem pendingPacketCount_filter_split (l : List (RouteKey × PendingRoute))
    (p : RouteKey × PendingRoute → Bool) :
    pendingPacketCount (l.filter p)
      + pendingPacketCount (l.filter (fun e => !(p e)))
      = pendingPacketCount l := by
  induction l with
  | nil => simp [pendingPacketCount]
  | cons e l ih =>
      by_cases he : p e
      · rw [List.filter_cons_of_pos he, List.filter_cons_of_neg (by simp [he])]
        simp only [pendingPacketCount_cons]
        omega
      · rw [List.filter_cons_of_neg (by simpa using he),
          List.filter_cons_of_pos (by simpa using he)]
        simp only [pendingPacketCount_cons]
        omega

/- Branch equations for the operations. -/

theorem getRoute_not_live (t : RouteTable) (k : RouteKey) (p : Packet)
    (now : MonotonicTime) (hs : t.status ≠ .live) :
    GetRouteOrInsertPending t k p now = .error .invalidState := by
  unfold GetRouteOrInsertPending
  rw [if_pos hs]

theorem getRoute_resolved (t : RouteTable) (k : RouteKey) (p : Packet)
    (now : MonotonicTime) {r : InstalledRoute} {ts : MonotonicTime}
    (hs : t.status = .live)
    (hlk : lookupKey t.installedRoutes k = some (r, ts)) :
    GetRouteOrInsertPending t k p now =
      .ok ({ pendingRouteState := .PendingRouteStateNone
             installedRoute := some r },
           { t with installedRoutes := setKey t.installedRoutes k (r, now) }) := by
  unfold GetRouteOrInsertPending
  rw [if_neg (by simp [hs]), hlk]

theorem getRoute_full (t : RouteTable) (k : RouteKey) (p : Packet)
    (now : MonotonicTime) (hs : t.status = .live)
    (hlk : lookupKey t.installedRoutes k = Option.none)
    (hb : t.config.maxPendingPacketsBuffered < (t.numBufferedPackets : Int) + 1) :
    GetRouteOrInsertPending t k p now = .error .noBufferSpace := by
  unfold GetRouteOrInsertPending
  rw [if_neg (by simp [hs]), hlk]
  exact if_pos hb

theorem getRoute_append (t : RouteTable) (k : RouteKey) (p : Packet)
    (now : MonotonicTime) (pr : PendingRoute) (hs : t.status = .live)
    (hlk : lookupKey t.installedRoutes k = Option.none)
    (hb : ¬ t.config.maxPendingPacketsBuffered < (t.numBufferedPackets : Int) + 1)
    (hlp : lookupKey t.pendingRoutes k = some pr) :
    GetRouteOrInsertPending t k p now =
      .ok ({ pendingRouteState := .PendingRouteStateAppended
             installedRoute := Option.none },
           { t with
              pendingRoutes :=
                setKey t.pendingRoutes k { pr with packets := pr.packets ++ [p] }
              numBufferedPackets := t.numBufferedPackets + 1
              refsTaken := t.refsTaken + 1 }) := by
  unfold GetRouteOrInsertPending
  rw [if_neg (by simp [hs]), hlk]
  simp only [if_neg hb, hlp]

theorem getRoute_new (t : RouteTable) (k : RouteKey) (p : Packet)
    (now : MonotonicTime) (hs : t.status = .live)
    (hlk : lookupKey t.installedRoutes k = Option.none)
    (hb : ¬ t.config.maxPendingPacketsBuffered < (t.numBufferedPackets : Int) + 1)
    (hlp : lookupKey t.pendingRoutes k = Option.none) :
    GetRouteOrInsertPending t k p now =
      .ok ({ pendingRouteState := .PendingRouteStateInstalled
             installedRoute := Option.none },
           { t with
              pendingRoutes :=
                setKey t.pendingRoutes k { packets := [p], createdAt := now }
              numBufferedPackets := t.numBufferedPackets + 1
              refsTaken := t.refsTaken + 1 }) := by
  unfold GetRouteOrInsertPending
  rw [if_neg (by simp [hs]), hlk]
  simp only [if_neg hb, hlp]

theorem addRoute_not_live (t : RouteTable) (k : RouteKey) (r : InstalledRoute)
    (now : MonotonicTime) (hs : t.status ≠ .live) :
    AddInstalledRoute t k r now = .error .invalidState := by
  unfold AddInstalledRoute
  rw [if_pos hs]

theorem addRoute_promote (t : RouteTable) (k : RouteKey) (r : InstalledRoute)
    (now : MonotonicTime) (pr : PendingRoute) (hs : t.status = .live)
    (hlp : lookupKey t.pendingRoutes k = some pr) :
    AddInstalledRoute t k r now =
      .ok (pr.packets,
           { t with
              installedRoutes := setKey t.installedRoutes k (r, now)
              pendingRoutes := removeKey t.pendingRoutes k
              numBufferedPackets := t.numBufferedPackets - pr.packets.length
              refsReleased := t.refsReleased + pr.packets.length }) := by
  unfold AddInstalledRoute
  rw [if_neg (by simp [hs]), hlp]

theorem addRoute_fresh (t : RouteTable) (k : RouteKey) (r : InstalledRoute)
    (now : MonotonicTime) (hs : t.status = .live)
    (hlp : lookupKey t.pendingRoutes k = Option.none) :
    AddInstalledRoute t k r now =
      .ok ([],
           { t with installedRoutes := setKey t.installedRoutes k (r, now) }) := by
  unfold AddInstalledRoute
  rw [if_neg (by simp [hs]), hlp]

theorem removeRoute_not_live (t : RouteTable) (k : RouteKey)
    (hs : t.status ≠ .live) :
    RemoveInstalledRoute t k = .error .invalidState := by
  unfold RemoveInstalledRoute
  rw [if_pos hs]

theorem removeRoute_found (t : RouteTable) (k : RouteKey)
    {r : InstalledRoute × MonotonicTime} (hs : t.status = .live)
    (hlk : lookupKey t.installedRoutes k = some r) :
    RemoveInstalledRoute t k =
      .ok (true, { t with installedRoutes := removeKey t.installedRoutes k }) := by
  unfold RemoveInstalledRoute
  rw [if_neg (by simp [hs]), hlk]

theorem removeRoute_missing (t : RouteTable) (k : RouteKey)
    (hs : t.status = .live)
    (hlk : lookupKey t.installedRoutes k = Option.none) :
    RemoveInstalledRoute t k = .ok (false, t) := by
  unfold RemoveInstalledRoute
  rw [if_neg (by simp [hs]), hlk]

theorem getLastUsed_live (t : RouteTable) (k : RouteKey)
    (hs : t.status = .live) :
    GetLastUsedTimestamp t k =
      .ok ((lookupKey t.installedRoutes k).map Prod.snd) := by
  unfold GetLastUsedTimestamp
  rw [if_neg (by simp [hs])]

theorem getLastUsed_not_live (t : RouteTable) (k : RouteKey)
    (hs : t.status ≠ .live) :
    GetLastUsedTimestamp t k = .error .invalidState := by
  unfold GetLastUsedTimestamp
  rw [if_pos hs]

/- Table invariants (spec section 3) and their preservation. -/

theorem inv_init {c : Config} {t : RouteTable} (h : Init c = .ok t) : Inv t := by
  unfold Init at h
  by_cases hc : c.maxPendingPacketsBuffered ≤ 0 ∨ c.pendingRouteLifetime ≤ 0
  · rw [if_pos hc] at h
    exact absurd h (by simp)
  · rw [if_neg hc] at h
    injection h with h
    subst h
    refine ⟨?_, ?_, ?_, rfl, rfl⟩
    · simp [NodupKeys, keysOf]
    · simp [NodupKeys, keysOf]
    · intro k
      left
      rfl

theorem inv_getRoute (t : RouteTable) (k : RouteKey) (p : Packet)
    (now : MonotonicTime) (h : Inv t) : Inv (applyOp t (.getRoute k p now)) := by
  by_cases hs : t.status = TableStatus.live
  · cases hlk : lookupKey t.installedRoutes k with
    | some rt =>
        obtain ⟨route, ts⟩ := rt
        simp only [applyOp, getRoute_resolved t k p now hs hlk]
        refine ⟨nodupKeys_setKey k (route, now) h.ndInstalled, h.ndPending,
          ?_, h.count, h.owner⟩
        intro a
        by_cases ha : a = k
        · subst ha
          rcases h.disj a with hi | hp
          · rw [hlk] at hi
            exact absurd hi (by simp)
          · right
            exact hp
        · rw [lookupKey_setKey_ne _ _ ha]
          exact h.disj a
    | none =>
        by_cases hb : t.config.maxPendingPacketsBuffered <
            (t.numBufferedPackets : Int) + 1
        · simp only [applyOp, getRoute_full t k p now hs hlk hb]
          exact h
        · cases hlp : lookupKey t.pendingRoutes k with
          | some pr =>
              simp only [applyOp, getRoute_append t k p now pr hs hlk hb hlp]
              refine ⟨h.ndInstalled, nodupKeys_setKey k _ h.ndPending, ?_, ?_, ?_⟩
              · intro a
                by_cases ha : a = k
                · subst ha
                  left
                  exact hlk
                · rw [lookupKey_setKey_ne _ _ ha]
                  exact h.disj a
              · have hc := pendingPacketCount_setKey_found
                  { pr with packets := pr.packets ++ [p] } hlp
                simp only [List.length_append, List.length_cons,
                  List.length_nil] at hc
                have := h.count
                simp only []
                omega
              · have := h.owner
                simp only []
                omega
          | none =>
              simp only [applyOp, getRoute_new t k p now hs hlk hb hlp]
              refine ⟨h.ndInstalled, nodupKeys_setKey k _ h.ndPending, ?_, ?_, ?_⟩
              · intro a
                by_cases ha : a = k
                · subst ha
                  left
                  exact hlk
                · rw [lookupKey_setKey_ne _ _ ha]
                  exact h.disj a
              · have hc := pendingPacketCount_setKey_new
                  { packets := [p], createdAt := now } hlp
                simp only [List.length_cons, List.length_nil] at hc
                have := h.count
                simp only []
                omega
              · have := h.owner
                simp only []
                omega
  · simp only [applyOp, getRoute_not_live t k p now hs]
    exact h

theorem inv_addRoute (t : RouteTable) (k : RouteKey) (r : InstalledRoute)
    (now : MonotonicTime) (h : Inv t) : Inv (applyOp t (.addRoute k r now)) := by
  by_cases hs : t.status = TableStatus.live
  · cases hlp : lookupKey t.pendingRoutes k with
    | some pr =>
        simp only [applyOp, addRoute_promote t k r now pr hs hlp]
        have hc := pendingPacketCount_removeKey h.ndPending hlp
        refine ⟨nodupKeys_setKey k (r, now) h.ndInstalled,
          nodupKeys_removeKey k h.ndPending, ?_, ?_, ?_⟩
        · intro a
          by_cases ha : a = k
          · subst ha
            right
            exact lookupKey_removeKey_self t.pendingRoutes a
          · rw [lookupKey_setKey_ne _ _ ha, lookupKey_removeKey_ne _ ha]
            exact h.disj a
        · have := h.count
          simp only []
          omega
        · have := h.owner
          have := h.count
          simp only []
          omega
    | none =>
        simp only [applyOp, addRoute_fresh t k r now hs hlp]
        refine ⟨nodupKeys_setKey k (r, now) h.ndInstalled, h.ndPending,
          ?_, h.count, h.owner⟩
        intro a
        by_cases ha : a = k
        · subst ha
          right
          exact hlp
        · rw [lookupKey_setKey_ne _ _ ha]
          exact h.disj a
  · simp only [applyOp, addRoute_not_live t k r now hs]
    exact h

theorem inv_removeRoute (t : RouteTable) (k : RouteKey) (h : Inv t) :
    Inv (applyOp t (.removeRoute k)) := by
  by_cases hs : t.status = TableStatus.live
  · cases hlk : lookupKey t.installedRoutes k with
    | some rt =>
        simp only [applyOp, removeRoute_found t k hs hlk]
        refine ⟨nodupKeys_removeKey k h.ndInstalled, h.ndPending, ?_,
          h.count, h.owner⟩
        intro a
        by_cases ha : a = k
        · subst ha
          left
          exact lookupKey_removeKey_self t.installedRoutes a
        · rw [lookupKey_removeKey_ne _ ha]
          exact h.disj a
    | none =>
        simp only [applyOp, removeRoute_missing t k hs hlk]
        exact h
  · simp only [applyOp, removeRoute_not_live t k hs]
    exact h

theorem inv_cleanup (t : RouteTable) (now : MonotonicTime) (h : Inv t) :
    Inv (applyOp t (.cleanup now)) := by
  simp only [applyOp]
  unfold cleanupPendingRoutes
  have hsplit := pendingPacketCount_filter_split t.pendingRoutes
    (expiredAt t.config.pendingRouteLifetime.toNat now)
  refine ⟨h.ndInstalled, nodupKeys_filter _ h.ndPending, ?_, ?_, ?_⟩
  · intro a
    rcases h.disj a with hi | hp
    · left
      exact hi
    · right
      exact lookupKey_filter_none _ hp
  · have := h.count
    simp only []
    omega
  · have := h.owner
    have := h.count
    simp only []
    omega

theorem inv_close (t : RouteTable) (h : Inv t) : Inv (applyOp t .close) := by
  simp only [applyOp]
  unfold Close
  refine ⟨?_, ?_, ?_, rfl, ?_⟩
  · simp [NodupKeys, keysOf]
  · simp [NodupKeys, keysOf]
  · intro a
    left
    rfl
  · have := h.owner
    have := h.count
    simp only []
    omega

theorem inv_applyOp (t : RouteTable) (op : Op) (h : Inv t) :
    Inv (applyOp t op) := by
  cases op with
  | getRoute k p now => exact inv_getRoute t k p now h
  | addRoute k r now => exact inv_addRoute t k r now h
  | removeRoute k => exact inv_removeRoute t k h
  | cleanup now => exact inv_cleanup t now h
  | close => exact inv_close t h

/-- Every reachable table state satisfies the structural invariants. -/
theorem reachable_inv {t : RouteTable} (h : Reachable t) : Inv t := by
  induction h with
  | init c t h => exact inv_init h
  | step t op _ ih => exact inv_applyOp t op ih

/- Helper lemmas characterizing the expiration sweep on a table where
exactly one entry is due. -/

theorem filter_all_false {α : Type} {l : List α} {p : α → Bool}
    (h : ∀ e ∈ l, p e = false) : l.filter p = [] := by
  induction l with
  | nil => rfl
  | cons e l ih =>
      rw [List.filter_cons_of_neg (by simp [h e (List.mem_cons_self e l)])]
      exact ih (fun e' he' => h e' (List.mem_cons_of_mem e he'))

theorem filter_all_true {α : Type} {l : List α} {p : α → Bool}
    (h : ∀ e ∈ l, p e = true) : l.filter p = l := by
  induction l with
  | nil => rfl
  | cons e l ih =>
      rw [List.filter_cons_of_pos (h e (List.mem_cons_self e l))]
      rw [ih (fun e' he' => h e' (List.mem_cons_of_mem e he'))]

theorem filter_singleton_of_lookup {l : List (RouteKey × PendingRoute)}
    {k : RouteKey} {pr : PendingRoute} {p : RouteKey × PendingRoute → Bool}
    (hnd : NodupKeys l) (hlp : lookupKey l k = some pr)
    (hk : p (k, pr) = true)
    (hothers : ∀ e ∈ l, e.1 ≠ k → p e = false) :
    l.filter p = [(k, pr)] := by
  induction l with
  | nil => simp [lookupKey] at hlp
  | cons e l ih =>
      simp only [NodupKeys, keysOf, List.map_cons, List.nodup_cons] at hnd
      by_cases he : e.1 = k
      · simp only [lookupKey, if_pos he] at hlp
        have hek : e = (k, pr) := by
          obtain ⟨e1, e2⟩ := e
          simp only at he hlp
          injection hlp with hlp
          rw [he, hlp]
        subst hek
        rw [List.filter_cons_of_pos hk]
        rw [filter_all_false]
        intro e' he'
        refine hothers e' (List.mem_cons_of_mem _ he') ?_
        intro hk'
        have hm : e'.1 ∈ List.map Prod.fst l := List.mem_map_of_mem Prod.fst he'
        rw [hk'] at hm
        exact hnd.1 hm
      · simp only [lookupKey, if_neg he] at hlp
        rw [List.filter_cons_of_neg
          (by simp [hothers e (List.mem_cons_self e l) he])]
        exact ih hnd.2 hlp
          (fun e' he' hne => hothers e' (List.mem_cons_of_mem e he') hne)

theorem filter_not_eq_removeKey {l : List (RouteKey × PendingRoute)}
    {k : RouteKey} {pr : PendingRoute} {p : RouteKey × PendingRoute → Bool}
    (hnd : NodupKeys l) (hlp : lookupKey l k = some pr)
    (hk : p (k, pr) = true)
    (hothers : ∀ e ∈ l, e.1 ≠ k → p e = false) :
    l.filter (fun e => !(p e)) = removeKey l k := by
  induction l with
  | nil => simp [lookupKey] at hlp
  | cons e l ih =>
      simp only [NodupKeys, keysOf, List.map_cons, List.nodup_cons] at hnd
      by_cases he : e.1 = k
      · simp only [lookupKey, if_pos he] at hlp
        have hek : e = (k, pr) := by
          obtain ⟨e1, e2⟩ := e
          simp only at he hlp
          injection hlp with hlp
          rw [he, hlp]
        rw [List.filter_cons_of_neg (by simp [hek, hk]),
          removeKey, if_pos he]
        have hnm : k ∉ keysOf l := by
          rw [← he]
          exact hnd.1
        rw [removeKey_of_not_mem hnm]
        apply filter_all_true
        intro e' he'
        have hne : e'.1 ≠ k := by
          intro hk'
          have hm : e'.1 ∈ List.map Prod.fst l := List.mem_map_of_mem Prod.fst he'
          rw [hk'] at hm
          exact hnm hm
        simp [hothers e' (List.mem_cons_of_mem e he') hne]
      · simp only [lookupKey, if_neg he] at hlp
        rw [List.filter_cons_of_pos
          (by simp [hothers e (List.mem_cons_self e l) he]),
          removeKey, if_neg he]
        rw [ih hnd.2 hlp
          (fun e' he' hne => hothers e' (List.mem_cons_of_mem e he') hne)]

/- Claim theorems. -/

/-- C3: for every reachable table state (any sequence of inserts,
promotions and evictions after Init), the global buffered packet counter
equals the sum of the packet counts of all pending entries. -/
theorem buffer_counter_eq_pending_sum (t : RouteTable) (h : Reachable t) :
    t.numBufferedPackets = pendingPacketCount t.pendingRoutes :=
  (reachable_inv h).count

/-- Witness for C3 at a concrete reachable state holding one staged
packet. -/
theorem buffer_counter_eq_pending_sum_witness :
    (applyOp freshTable (Op.getRoute sampleKey 7 10000000000)).numBufferedPackets
      = pendingPacketCount
          (applyOp freshTable (Op.getRoute sampleKey 7 10000000000)).pendingRoutes :=
  buffer_counter_eq_pending_sum _
    (Reachable.step freshTable _ (Reachable.init DefaultConfig freshTable rfl))

/-- C5: in every reachable table state, every key is in at most one of
the installed route map and the pending route map. -/
theorem installed_xor_pending (t : RouteTable) (k : RouteKey)
    (h : Reachable t) :
    lookupKey t.installedRoutes k = Option.none ∨
      lookupKey t.pendingRoutes k = Option.none :=
  (reachable_inv h).disj k

/-- Witness for C5 at a concrete reachable state. -/
theorem installed_xor_pending_witness :
    lookupKey (applyOp freshTable
        (Op.getRoute sampleKey 7 10000000000)).installedRoutes sampleKey
        = Option.none ∨
      lookupKey (applyOp freshTable
        (Op.getRoute sampleKey 7 10000000000)).pendingRoutes sampleKey
        = Option.none :=
  installed_xor_pending _ sampleKey
    (Reachable.step freshTable _ (Reachable.init DefaultConfig freshTable rfl))

/-- C8: in every reachable table state, the ownership references taken by
the table equal the references it has released plus the packets currently
stored in pending entries; counting references, every taken reference is
either still stored or was released exactly once, with no double release
and no leak. -/
theorem ownership_conservation (t : RouteTable) (h : Reachable t) :
    t.refsTaken = t.refsReleased + pendingPacketCount t.pendingRoutes := by
  have hi := reachable_inv h
  rw [← hi.count]
  exact hi.owner

/-- Witness for C8 at a concrete reachable state where a packet was staged
and then flushed by a promotion. -/
theorem ownership_conservation_witness :
    (applyOp (applyOp freshTable (Op.getRoute sampleKey 7 10000000000))
        (Op.addRoute sampleKey sampleRoute 10000000000)).refsTaken
      = (applyOp (applyOp freshTable (Op.getRoute sampleKey 7 10000000000))
          (Op.addRoute sampleKey sampleRoute 10000000000)).refsReleased
        + pendingPacketCount
            (applyOp (applyOp freshTable (Op.getRoute sampleKey 7 10000000000))
              (Op.addRoute sampleKey sampleRoute 10000000000)).pendingRoutes :=
  ownership_conservation _
    (Reachable.step _ _
      (Reachable.step freshTable _ (Reachable.init DefaultConfig freshTable rfl)))

/-- C4: when the table is live, the key has no installed route, and the
global buffered packet counter has reached the configured budget, staging
is refused: GetRouteOrInsertPending returns the no buffer space error and
the table state is left unchanged (no packet staged, no reference
taken). -/
theorem getRoute_no_buffer_space (t : RouteTable) (k : RouteKey) (p : Packet)
    (now : MonotonicTime)
    (hs : t.status = .live)
    (hlk : lookupKey t.installedRoutes k = Option.none)
    (hfull : t.config.maxPendingPacketsBuffered ≤ (t.numBufferedPackets : Int)) :
    GetRouteOrInsertPending t k p now = .error .noBufferSpace ∧
    applyOp t (.getRoute k p now) = t := by
  have herr := getRoute_full t k p now hs hlk (by omega)
  exact ⟨herr, by simp only [applyOp, herr]⟩

/-- Witness for C4 on a concrete table whose one packet budget is
exhausted. -/
theorem getRoute_no_buffer_space_witness :
    GetRouteOrInsertPending fullTable otherKey 9 5 = .error .noBufferSpace ∧
    applyOp fullTable (.getRoute otherKey 9 5) = fullTable :=
  getRoute_no_buffer_space fullTable otherKey 9 5 rfl rfl (by decide)

/-- C9: Init rejects a non positive buffer budget or pending route
lifetime with the invalid configuration error (failing closed: no
Initialized table is produced, and the zero table is Uninitialized), and
every lookup or insert method invoked on a table that is not live (before
Init or after Close, which is terminal) fails with the invalid state
error. -/
theorem lifecycle_validation (c : Config) (t : RouteTable) (k : RouteKey)
    (p : Packet) (r : InstalledRoute) (now : MonotonicTime) :
    ((c.maxPendingPacketsBuffered ≤ 0 ∨ c.pendingRouteLifetime ≤ 0) →
      Init c = .error .invalidConfig) ∧
    RouteTable.empty.status = .uninit ∧
    (Close t).status = .closed ∧
    (t.status ≠ .live →
      GetRouteOrInsertPending t k p now = .error .invalidState ∧
      AddInstalledRoute t k r now = .error .invalidState ∧
      RemoveInstalledRoute t k = .error .invalidState ∧
      GetLastUsedTimestamp t k = .error .invalidState) := by
  refine ⟨?_, rfl, rfl, ?_⟩
  · intro hc
    unfold Init
    rw [if_pos hc]
  · intro hs
    exact ⟨getRoute_not_live t k p now hs, addRoute_not_live t k r now hs,
      removeRoute_not_live t k hs, getLastUsed_not_live t k hs⟩

/-- Witness for C9: a zero budget is rejected, and a call on the
Uninitialized zero table fails with the invalid state error. -/
theorem lifecycle_validation_witness :
    Init { maxPendingPacketsBuffered := 0, pendingRouteLifetime := 60000000000 }
        = .error .invalidConfig ∧
    GetRouteOrInsertPending RouteTable.empty sampleKey 1 5
        = .error .invalidState :=
  ⟨(lifecycle_validation
      { maxPendingPacketsBuffered := 0, pendingRouteLifetime := 60000000000 }
      RouteTable.empty sampleKey 1 sampleRoute 5).1 (Or.inl (by decide)),
   ((lifecycle_validation
      { maxPendingPacketsBuffered := 0, pendingRouteLifetime := 60000000000 }
      RouteTable.empty sampleKey 1 sampleRoute 5).2.2.2 (by decide)).1⟩

/-- C1: on a live table with room in the buffer budget, the first
GetRouteOrInsertPending call on a key with no installed route and no
pending entry returns the newly pending state (so the caller signals the
control plane exactly once), a second call on the same still unresolved
key returns the appended pending state, and a call on a key with an
installed route returns the resolved state carrying that route and
updates the last used timestamp of the route to the call time. -/
theorem getRoute_state_transitions (t : RouteTable) (k : RouteKey)
    (p q : Packet) (r : InstalledRoute) (ts now now' : MonotonicTime)
    (hs : t.status = .live)
    (hroom : (t.numBufferedPackets : Int) + 2 ≤ t.config.maxPendingPacketsBuffered) :
    (lookupKey t.installedRoutes k = Option.none →
      lookupKey t.pendingRoutes k = Option.none →
      ∃ t₁, GetRouteOrInsertPending t k p now =
          .ok ({ pendingRouteState := .PendingRouteStateInstalled,
                 installedRoute := Option.none }, t₁) ∧
        ∃ t₂, GetRouteOrInsertPending t₁ k q now' =
          .ok ({ pendingRouteState := .PendingRouteStateAppended,
                 installedRoute := Option.none }, t₂)) ∧
    (lookupKey t.installedRoutes k = some (r, ts) →
      ∃ t₃, GetRouteOrInsertPending t k p now =
          .ok ({ pendingRouteState := .PendingRouteStateNone,
                 installedRoute := some r }, t₃) ∧
        lookupKey t₃.installedRoutes k = some (r, now)) := by
  constructor
  · intro hlk hlp
    have hb₁ : ¬ t.config.maxPendingPacketsBuffered <
        (t.numBufferedPackets : Int) + 1 := by omega
    refine ⟨_, getRoute_new t k p now hs hlk hb₁ hlp, ?_⟩
    have hb₂ : ¬ t.config.maxPendingPacketsBuffered <
        ((t.numBufferedPackets + 1 : Nat) : Int) + 1 := by push_cast; omega
    exact ⟨_, getRoute_append
      { t with
         pendingRoutes := setKey t.pendingRoutes k
           { packets := [p], createdAt := now }
         numBufferedPackets := t.numBufferedPackets + 1
         refsTaken := t.refsTaken + 1 }
      k q now' { packets := [p], createdAt := now } hs hlk hb₂
      (lookupKey_setKey_self t.pendingRoutes k _)⟩
  · intro hlk
    refine ⟨_, getRoute_resolved t k p now hs hlk, ?_⟩
    exact lookupKey_setKey_self t.installedRoutes k _

/-- Witness for C1: on the freshly initialized default table, the first
call on a new key is newly pending and the second is appended pending. -/
theorem getRoute_state_transitions_witness :
    ∃ t₁, GetRouteOrInsertPending freshTable sampleKey 1 5 =
        .ok ({ pendingRouteState := .PendingRouteStateInstalled,
               installedRoute := Option.none }, t₁) ∧
      ∃ t₂, GetRouteOrInsertPending t₁ sampleKey 2 6 =
        .ok ({ pendingRouteState := .PendingRouteStateAppended,
               installedRoute := Option.none }, t₂) :=
  (getRoute_state_transitions freshTable sampleKey 1 2 sampleRoute 0 5 6
    rfl (by decide)).1 rfl rfl

/-- C2: on a live table satisfying the counter invariant,
AddInstalledRoute installs the route for the key with its last used
timestamp set to the current clock time; if a pending entry existed it is
removed, exactly its buffered packets are handed back to the caller, and
the global buffered packet counter drops by their number; if none
existed the returned flush list is empty and the counter is unchanged. -/
theorem addInstalledRoute_spec (t : RouteTable) (k : RouteKey)
    (r : InstalledRoute) (now : MonotonicTime)
    (hs : t.status = .live)
    (hnd : NodupKeys t.pendingRoutes)
    (hcount : t.numBufferedPackets = pendingPacketCount t.pendingRoutes) :
    (∀ pr, lookupKey t.pendingRoutes k = some pr →
      ∃ t', AddInstalledRoute t k r now = .ok (pr.packets, t') ∧
        lookupKey t'.installedRoutes k = some (r, now) ∧
        lookupKey t'.pendingRoutes k = Option.none ∧
        t'.numBufferedPackets + pr.packets.length = t.numBufferedPackets ∧
        t'.refsReleased = t.refsReleased + pr.packets.length) ∧
    (lookupKey t.pendingRoutes k = Option.none →
      ∃ t', AddInstalledRoute t k r now = .ok ([], t') ∧
        lookupKey t'.installedRoutes k = some (r, now) ∧
        t'.numBufferedPackets = t.numBufferedPackets) := by
  constructor
  · intro pr hlp
    refine ⟨_, addRoute_promote t k r now pr hs hlp, ?_, ?_, ?_, ?_⟩
    · exact lookupKey_setKey_self t.installedRoutes k _
    · exact lookupKey_removeKey_self t.pendingRoutes k
    · have hc := pendingPacketCount_removeKey hnd hlp
      simp only []
      omega
    · rfl
  · intro hlp
    refine ⟨_, addRoute_fresh t k r now hs hlp, ?_, rfl⟩
    exact lookupKey_setKey_self t.installedRoutes k _

/-- Witness for C2 on a concrete table with one pending packet. -/
theorem addInstalledRoute_spec_witness :
    ∃ t', AddInstalledRoute pendingTable sampleKey sampleRoute 11
        = .ok ([7], t') ∧
      lookupKey t'.installedRoutes sampleKey = some (sampleRoute, 11) ∧
      lookupKey t'.pendingRoutes sampleKey = Option.none ∧
      t'.numBufferedPackets + 1 = pendingTable.numBufferedPackets ∧
      t'.refsReleased = pendingTable.refsReleased + 1 :=
  (addInstalledRoute_spec pendingTable sampleKey sampleRoute 11 rfl
    (by unfold NodupKeys keysOf; decide) rfl).1
    { packets := [7], createdAt := 10000000000 } rfl

/-- C6: packets staged for one key are kept in strict FIFO order (each
enqueue appends at the tail) and promotion flushes them in enqueue order:
staging p1, p2, p3 on a fresh key leaves the pending entry holding
exactly the list p1, p2, p3 and AddInstalledRoute returns them in exactly
that order. -/
theorem pending_fifo_promotion (t : RouteTable) (k : RouteKey)
    (p₁ p₂ p₃ : Packet) (r : InstalledRoute) (n₁ n₂ n₃ n₄ : MonotonicTime)
    (hs : t.status = .live)
    (hlk : lookupKey t.installedRoutes k = Option.none)
    (hlp : lookupKey t.pendingRoutes k = Option.none)
    (hroom : (t.numBufferedPackets : Int) + 3 ≤ t.config.maxPendingPacketsBuffered) :
    ∃ t₁ t₂ t₃ t₄,
      GetRouteOrInsertPending t k p₁ n₁ =
        .ok ({ pendingRouteState := .PendingRouteStateInstalled,
               installedRoute := Option.none }, t₁) ∧
      GetRouteOrInsertPending t₁ k p₂ n₂ =
        .ok ({ pendingRouteState := .PendingRouteStateAppended,
               installedRoute := Option.none }, t₂) ∧
      GetRouteOrInsertPending t₂ k p₃ n₃ =
        .ok ({ pendingRouteState := .PendingRouteStateAppended,
               installedRoute := Option.none }, t₃) ∧
      lookupKey t₃.pendingRoutes k =
        some { packets := [p₁, p₂, p₃], createdAt := n₁ } ∧
      AddInstalledRoute t₃ k r n₄ = .ok ([p₁, p₂, p₃], t₄) := by
  have hb₁ : ¬ t.config.maxPendingPacketsBuffered <
      (t.numBufferedPackets : Int) + 1 := by omega
  have hb₂ : ¬ t.config.maxPendingPacketsBuffered <
      ((t.numBufferedPackets + 1 : Nat) : Int) + 1 := by push_cast; omega
  have hb₃ : ¬ t.config.maxPendingPacketsBuffered <
      ((t.numBufferedPackets + 1 + 1 : Nat) : Int) + 1 := by push_cast; omega
  refine
    ⟨{ t with
        pendingRoutes := setKey t.pendingRoutes k
          { packets := [p₁], createdAt := n₁ }
        numBufferedPackets := t.numBufferedPackets + 1
        refsTaken := t.refsTaken + 1 },
     { t with
        pendingRoutes := setKey (setKey t.pendingRoutes k
            { packets := [p₁], createdAt := n₁ }) k
          { packets := [p₁, p₂], createdAt := n₁ }
        numBufferedPackets := t.numBufferedPackets + 1 + 1
        refsTaken := t.refsTaken + 1 + 1 },
     { t with
        pendingRoutes := setKey (setKey (setKey t.pendingRoutes k
              { packets := [p₁], createdAt := n₁ }) k
            { packets := [p₁, p₂], createdAt := n₁ }) k
          { packets := [p₁, p₂, p₃], createdAt := n₁ }
        numBufferedPackets := t.numBufferedPackets + 1 + 1 + 1
        refsTaken := t.refsTaken + 1 + 1 + 1 },
     { t with
        installedRoutes := setKey t.installedRoutes k (r, n₄)
        pendingRoutes := removeKey (setKey (setKey (setKey t.pendingRoutes k
              { packets := [p₁], createdAt := n₁ }) k
            { packets := [p₁, p₂], createdAt := n₁ }) k
          { packets := [p₁, p₂, p₃], createdAt := n₁ }) k
        numBufferedPackets := t.numBufferedPackets + 1 + 1 + 1 - 3
        refsTaken := t.refsTaken + 1 + 1 + 1
        refsReleased := t.refsReleased + 3 },
     ?_, ?_, ?_, ?_, ?_⟩
  · exact getRoute_new t k p₁ n₁ hs hlk hb₁ hlp
  · exact getRoute_append
      { t with
         pendingRoutes := setKey t.pendingRoutes k
           { packets := [p₁], createdAt := n₁ }
         numBufferedPackets := t.numBufferedPackets + 1
         refsTaken := t.refsTaken + 1 }
      k p₂ n₂ { packets := [p₁], createdAt := n₁ } hs hlk hb₂
      (lookupKey_setKey_self _ k _)
  · exact getRoute_append
      { t with
         pendingRoutes := setKey (setKey t.pendingRoutes k
             { packets := [p₁], createdAt := n₁ }) k
           { packets := [p₁, p₂], createdAt := n₁ }
         numBufferedPackets := t.numBufferedPackets + 1 + 1
         refsTaken := t.refsTaken + 1 + 1 }
      k p₃ n₃ { packets := [p₁, p₂], createdAt := n₁ } hs hlk hb₃
      (lookupKey_setKey_self _ k _)
  · exact lookupKey_setKey_self _ k _
  · exact addRoute_promote
      { t with
         pendingRoutes := setKey (setKey (setKey t.pendingRoutes k
               { packets := [p₁], createdAt := n₁ }) k
             { packets := [p₁, p₂], createdAt := n₁ }) k
           { packets := [p₁, p₂, p₃], createdAt := n₁ }
         numBufferedPackets := t.numBufferedPackets + 1 + 1 + 1
         refsTaken := t.refsTaken + 1 + 1 + 1 }
      k r n₄ { packets := [p₁, p₂, p₃], createdAt := n₁ } hs
      (lookupKey_setKey_self _ k _)

/-- Witness for C6 staging three packets on the fresh default table. -/
theorem pending_fifo_promotion_witness :
    ∃ t₁ t₂ t₃ t₄,
      GetRouteOrInsertPending freshTable sampleKey 21 1 =
        .ok ({ pendingRouteState := .PendingRouteStateInstalled,
               installedRoute := Option.none }, t₁) ∧
      GetRouteOrInsertPending t₁ sampleKey 22 2 =
        .ok ({ pendingRouteState := .PendingRouteStateAppended,
               installedRoute := Option.none }, t₂) ∧
      GetRouteOrInsertPending t₂ sampleKey 23 3 =
        .ok ({ pendingRouteState := .PendingRouteStateAppended,
               installedRoute := Option.none }, t₃) ∧
      lookupKey t₃.pendingRoutes sampleKey =
        some { packets := [21, 22, 23], createdAt := 1 } ∧
      AddInstalledRoute t₃ sampleKey sampleRoute 4 = .ok ([21, 22, 23], t₄) :=
  pending_fifo_promotion freshTable sampleKey 21 22 23 sampleRoute 1 2 3 4
    rfl rfl rfl (by decide)

/-- C7: on a live table satisfying the counter invariant, if the pending
entry for a key is due (its age reached the configured lifetime) and the
sweep runs, the entry is absent afterwards, the ownership references of
all its buffered packets have been released, the global counter dropped
by its packet count (exactly, when no other entry is due), and a
subsequent GetRouteOrInsertPending on the key behaves as if the key had
never been seen, returning the newly pending state. -/
theorem pending_route_expiration (t : RouteTable) (k : RouteKey)
    (pr : PendingRoute) (p : Packet) (now now' : MonotonicTime)
    (hs : t.status = .live)
    (hnd : NodupKeys t.pendingRoutes)
    (hcount : t.numBufferedPackets = pendingPacketCount t.pendingRoutes)
    (hlp : lookupKey t.pendingRoutes k = some pr)
    (hage : pr.createdAt + t.config.pendingRouteLifetime.toNat ≤ now)
    (hothers : ∀ e ∈ t.pendingRoutes, e.1 ≠ k →
      ¬ (e.2.createdAt + t.config.pendingRouteLifetime.toNat ≤ now)) :
    lookupKey (cleanupPendingRoutes t now).pendingRoutes k = Option.none ∧
    (cleanupPendingRoutes t now).numBufferedPackets + pr.packets.length
      = t.numBufferedPackets ∧
    (cleanupPendingRoutes t now).refsReleased
      = t.refsReleased + pr.packets.length ∧
    (lookupKey t.installedRoutes k = Option.none →
      ((cleanupPendingRoutes t now).numBufferedPackets : Int) + 1
          ≤ t.config.maxPendingPacketsBuffered →
      ∃ t', GetRouteOrInsertPending (cleanupPendingRoutes t now) k p now' =
        .ok ({ pendingRouteState := .PendingRouteStateInstalled,
               installedRoute := Option.none }, t')) := by
  have hk : expiredAt t.config.pendingRouteLifetime.toNat now (k, pr) = true := by
    simp [expiredAt, hage]
  have hoth : ∀ e ∈ t.pendingRoutes, e.1 ≠ k →
      expiredAt t.config.pendingRouteLifetime.toNat now e = false := by
    intro e he hne
    simp [expiredAt, hothers e he hne]
  have hfe := filter_singleton_of_lookup hnd hlp hk hoth
  have hfk := filter_not_eq_removeKey hnd hlp hk hoth
  have hrc := pendingPacketCount_removeKey hnd hlp
  have habsent : lookupKey (cleanupPendingRoutes t now).pendingRoutes k
      = Option.none := by
    simp only [cleanupPendingRoutes]
    rw [hfk]
    exact lookupKey_removeKey_self t.pendingRoutes k
  refine ⟨habsent, ?_, ?_, ?_⟩
  · show t.numBufferedPackets -
        pendingPacketCount (t.pendingRoutes.filter
          (expiredAt t.config.pendingRouteLifetime.toNat now))
        + pr.packets.length = t.numBufferedPackets
    rw [hfe, pendingPacketCount_cons, pendingPacketCount_nil]
    simp only []
    omega
  · show t.refsReleased +
        pendingPacketCount (t.pendingRoutes.filter
          (expiredAt t.config.pendingRouteLifetime.toNat now))
      = t.refsReleased + pr.packets.length
    rw [hfe, pendingPacketCount_cons, pendingPacketCount_nil]
    simp only []
    omega
  · intro hlk hroom
    have hb : ¬ t.config.maxPendingPacketsBuffered <
        ((cleanupPendingRoutes t now).numBufferedPackets : Int) + 1 := by
      omega
    exact ⟨_, getRoute_new (cleanupPendingRoutes t now) k p now' hs hlk hb habsent⟩

/-- Witness for C7 on a concrete table whose single pending entry has
outlived the default lifetime. -/
theorem pending_route_expiration_witness :
    lookupKey (cleanupPendingRoutes pendingTable 80000000000).pendingRoutes
        sampleKey = Option.none ∧
    (cleanupPendingRoutes pendingTable 80000000000).numBufferedPackets + 1
      = pendingTable.numBufferedPackets ∧
    (cleanupPendingRoutes pendingTable 80000000000).refsReleased
      = pendingTable.refsReleased + 1 ∧
    (lookupKey pendingTable.installedRoutes sampleKey = Option.none →
      ((cleanupPendingRoutes pendingTable 80000000000).numBufferedPackets : Int)
          + 1 ≤ pendingTable.config.maxPendingPacketsBuffered →
      ∃ t', GetRouteOrInsertPending (cleanupPendingRoutes pendingTable
          80000000000) sampleKey 9 80000000001 =
        .ok ({ pendingRouteState := .PendingRouteStateInstalled,
               installedRoute := Option.none }, t')) :=
  pending_route_expiration pendingTable sampleKey
    { packets := [7], createdAt := 10000000000 } 9 80000000000 80000000001
    rfl (by unfold NodupKeys keysOf; decide) rfl rfl (by decide)
    (by
      intro e he hne
      exfalso
      apply hne
      have he' : e = (sampleKey, { packets := [7], createdAt := 10000000000 }) := by
        simpa [pendingTable] using he
      rw [he'])

/-- C10: the end to end scenario of the package example test: on a table
initialized with the default configuration over a clock reading 10
seconds, staging one packet for a key yields the newly pending state,
AddInstalledRoute on that key returns exactly that one packet,
GetLastUsedTimestamp then reports 10000000000 nanoseconds (the
installation time) as found even though no resolved lookup ever occurred,
and RemoveInstalledRoute returns true. -/
theorem example_end_to_end :
    ∃ t₁ t₂ t₃,
      Init DefaultConfig = .ok freshTable ∧
      GetRouteOrInsertPending freshTable sampleKey 7 10000000000 =
        .ok ({ pendingRouteState := .PendingRouteStateInstalled,
               installedRoute := Option.none }, t₁) ∧
      AddInstalledRoute t₁ sampleKey sampleRoute 10000000000 =
        .ok ([7], t₂) ∧
      GetLastUsedTimestamp t₂ sampleKey = .ok (some 10000000000) ∧
      RemoveInstalledRoute t₂ sampleKey = .ok (true, t₃) := by
  exact ⟨_, _, _, rfl, rfl, rfl, rfl, rfl⟩

end Multicast
